import Mathlib

/-!
# Verification of `json_access_helper.hpp`

A shallow embedding of the accessor family generated by
`DEFINE_JSON_ACCESSOR(Tag, Type, Key)` in `src/json_access_helper.hpp`.
The generated operations are thin wrappers over the JSON value library
the header delegates to:

* `read(jv, tag)`      = `value_to<Type>(jv.at_pointer(path))`
* `try_read(jv, tag)`  = `find_pointer(path, ec)` then `try_value_to<Type>`
* `write(jv, tag, v)`  = `find_pointer(path, ec)`; on success assign
                         `value_from(v)` (or null for the `nullptr` overload)
                         through the returned pointer and return `true`,
                         otherwise return `false`
* `emplace(jv, tag, v)` = `jv.set_at_pointer(path, value_from(v))`
* `reference(jv, tag)` = `jv.find_pointer(path, ec)`

The JSON value, JSON-pointer resolution (`find_pointer` / `at_pointer`),
creating resolution (`set_at_pointer` with its default options:
`create_arrays = true`, `create_objects = true`, `replace_any_scalar = false`,
`max_created_element_index = 1024`) and the bidirectional typed conversion
are modelled from the library's documented semantics, since the library is
an external dependency of the repository.  Documents are immutable trees
here, so the mutating C++ operations are modelled as functions returning
the updated document; the reference returned by `emplace` is modelled as
the concrete location (list of object-key / array-index steps) of the
written node inside the updated document.
-/

set_option autoImplicit false

namespace JsonAccessHelper

/-- The generic JSON value (`boost::json::value`): null, bool, number,
string, array or object.  Numbers are modelled as integers, which covers
the integral kinds the repository's accessors are instantiated at. -/
inductive JValue where
  | null
  | bool (b : Bool)
  | num (n : Int)
  | str (s : String)
  | arr (elems : List JValue)
  | obj (fields : List (String × JValue))

/-- One step of a resolved location inside a document: an object key or an
array index.  Used to model the reference returned by `emplace`. -/
inductive Step where
  | objKey (k : String)
  | arrIdx (i : Nat)
deriving DecidableEq, Repr

/-- Key lookup in an object's field list (first match, as a pointer into a
`boost::json::object` designates the entry found for the key). -/
def lookupField : List (String × JValue) → String → Option JValue
  | [], _ => none
  | (k, v) :: rest, t => if k = t then some v else lookupField rest t

/-- Replace the value of the first field with the given key, leaving
everything else in place (assignment through the pointer obtained by key
lookup). -/
def replaceField : List (String × JValue) → String → JValue → List (String × JValue)
  | [], _, _ => []
  | (k, v) :: rest, t, c => if k = t then (k, c) :: rest else (k, v) :: replaceField rest t c

/-- Accumulate a decimal numeral; `none` on the empty list or a non-digit. -/
def digitsToNatAux : List Char → Nat → Option Nat
  | [], acc => some acc
  | c :: cs, acc =>
    if c.isDigit then digitsToNatAux cs (acc * 10 + (c.toNat - 48)) else none

/-- The numeric value of a nonempty all-digit character list. -/
def digitsToNat : List Char → Option Nat
  | [] => none
  | c :: cs => digitsToNatAux (c :: cs) 0

/-- Parse a JSON-pointer token as an array index.  RFC 6901 array indices
are canonical decimal numerals (no leading zeros, no signs), which is
exactly the set of strings on which `Nat` printing round-trips. -/
def parseIndex (t : String) : Option Nat :=
  match digitsToNat t.data with
  | some i => if Nat.repr i = t then some i else none
  | none => none

/-- Non-creating JSON-pointer resolution (`value::find_pointer`): walk the
token list; a missing key, an out-of-range or non-numeric index (including
the past-the-end token `-`), or a scalar met before the tokens are
exhausted all yield `none` (the C++ function returns a null pointer and an
error code). -/
def find_pointer : JValue → List String → Option JValue
  | v, [] => some v
  | .obj fields, t :: rest =>
    match lookupField fields t with
    | some child => find_pointer child rest
    | none => none
  | .arr elems, t :: rest =>
    match parseIndex t with
    | some i =>
      match elems[i]? with
      | some child => find_pointer child rest
      | none => none
    | none => none
  | _, _ :: _ => none

/-- Resolution followed by assignment through the resolved pointer: the
functional rendering of `*jv.find_pointer(path, ec) = w`.  Succeeds exactly
when `find_pointer` does and replaces the resolved node by `w`. -/
def writeAt : JValue → List String → JValue → Option JValue
  | _, [], w => some w
  | .obj fields, t :: rest, w =>
    match lookupField fields t with
    | some child =>
      match writeAt child rest w with
      | some c => some (.obj (replaceField fields t c))
      | none => none
    | none => none
  | .arr elems, t :: rest, w =>
    match parseIndex t with
    | some i =>
      match elems[i]? with
      | some child =>
        match writeAt child rest w with
        | some c => some (.arr (elems.set i c))
        | none => none
      | none => none
    | none => none
  | _, _ :: _, _ => none

/-- Default `set_pointer_options::max_created_element_index`. -/
def maxCreatedElementIndex : Nat := 1024

/-- Array-index interpretation of a token during creating resolution: the
past-the-end token `-` denotes the current size, otherwise the token must
be a canonical numeral. -/
def setIndexToken (t : String) (size : Nat) : Option Nat :=
  if t = "-" then some size else parseIndex t

/-- Creating JSON-pointer resolution with assignment
(`value::set_at_pointer` under its default options).  Walking a null
converts it to an empty array when the token is an index or `-`, else to
an empty object; missing object keys are inserted; array indices at or
beyond the size (or `-`) extend the array with nulls up to the index,
capped by `maxCreatedElementIndex`; a non-null scalar met before the end
fails (`replace_any_scalar` is false).  Returns the updated document and
the location of the written node (the returned `value&`). -/
def set_at_pointer : JValue → List String → JValue → Option (JValue × List Step)
  | _, [], w => some (w, [])
  | .null, t :: rest, w =>
    (match setIndexToken t 0 with
     | some i =>
       if i ≤ maxCreatedElementIndex then
         match set_at_pointer .null rest w with
         | some (c, l) => some (.arr (List.replicate i .null ++ [c]), .arrIdx i :: l)
         | none => none
       else none
     | none =>
       match set_at_pointer .null rest w with
       | some (c, l) => some (.obj [(t, c)], .objKey t :: l)
       | none => none)
  | .obj fields, t :: rest, w =>
    (match lookupField fields t with
     | some child =>
       match set_at_pointer child rest w with
       | some (c, l) => some (.obj (replaceField fields t c), .objKey t :: l)
       | none => none
     | none =>
       match set_at_pointer .null rest w with
       | some (c, l) => some (.obj (fields ++ [(t, c)]), .objKey t :: l)
       | none => none)
  | .arr elems, t :: rest, w =>
    (match setIndexToken t elems.length with
     | some i =>
       if i < elems.length then
         match set_at_pointer (elems.getD i .null) rest w with
         | some (c, l) => some (.arr (elems.set i c), .arrIdx i :: l)
         | none => none
       else
         if i ≤ maxCreatedElementIndex then
           match set_at_pointer .null rest w with
           | some (c, l) =>
             some (.arr (elems ++ List.replicate (i - elems.length) .null ++ [c]), .arrIdx i :: l)
           | none => none
         else none
     | none => none)
  | _, _ :: _, _ => none

/-- Read a node back at a resolved location. -/
def getAtLoc : JValue → List Step → Option JValue
  | v, [] => some v
  | .obj fields, .objKey k :: rest =>
    match lookupField fields k with
    | some child => getAtLoc child rest
    | none => none
  | .arr elems, .arrIdx i :: rest =>
    match elems[i]? with
    | some child => getAtLoc child rest
    | none => none
  | _, _ :: _ => none

/-- The two failure categories of the accessor contract: a path segment
that does not exist versus a resolved node whose kind cannot be converted
to the bound value type.  `read` raises them as exceptions, `try_read`
carries them in its `result`. -/
inductive JErr where
  | notFound
  | typeMismatch
deriving DecidableEq, Repr

/-- The library's bidirectional conversion between the bound value type
and generic JSON values (`value_from` / `try_value_to`, with `value_to`
being the raising form of the latter), together with its round-trip
contract. -/
structure JConv (α : Type) where
  value_from : α → JValue
  try_value_to : JValue → Option α
  round_trip : ∀ a, try_value_to (value_from a) = some a

/-- A tag binding: the parsed JSON-pointer token list of the `Key` string
and the conversion for the bound value `Type`.  Distinct tags of the
macro correspond to distinct values of this structure. -/
structure JTag (α : Type) where
  ptr : List String
  conv : JConv α

/-- Split a character list into groups separated by `/`. -/
def splitSlashes : List Char → List (List Char)
  | [] => [[]]
  | c :: cs =>
    if c = '/' then [] :: splitSlashes cs
    else
      match splitSlashes cs with
      | g :: gs => (c :: g) :: gs
      | [] => [[c]]

/-- Unescape one JSON-pointer token (`~1` → `/`, `~0` → `~`). -/
def unescChars : List Char → List Char
  | [] => []
  | '~' :: '0' :: cs => '~' :: unescChars cs
  | '~' :: '1' :: cs => '/' :: unescChars cs
  | c :: cs => c :: unescChars cs

/-- Parse a pointer string such as `"/user/name"` into its token list: an
empty pointer has no tokens, otherwise drop the leading `/` and split. -/
def pointerTokens (s : String) : List String :=
  match s.data with
  | [] => []
  | _ :: cs => (splitSlashes cs).map (fun g => String.mk (unescChars g))

/-- `at_pointer`: resolve or raise `NotFound`-class failure. -/
def at_pointer (doc : JValue) (p : List String) : Except JErr JValue :=
  match find_pointer doc p with
  | some n => .ok n
  | none => .error .notFound

/-- `value_to`: convert or raise `TypeMismatch`-class failure. -/
def value_to {α : Type} (conv : JConv α) (n : JValue) : Except JErr α :=
  match conv.try_value_to n with
  | some v => .ok v
  | none => .error .typeMismatch

/-- `read(jv, tag)` = `value_to<Type>(jv.at_pointer(path))`. -/
def read {α : Type} (doc : JValue) (tag : JTag α) : Except JErr α :=
  match at_pointer doc tag.ptr with
  | .ok n => value_to tag.conv n
  | .error e => .error e

/-- `try_read(jv, tag)`: `find_pointer`, returning the resolution error
code on failure, otherwise `try_value_to`. -/
def try_read {α : Type} (doc : JValue) (tag : JTag α) : Except JErr α :=
  match find_pointer doc tag.ptr with
  | none => .error .notFound
  | some n =>
    match tag.conv.try_value_to n with
    | some v => .ok v
    | none => .error .typeMismatch

/-- `write(jv, tag, value)` (both the copying and the moving overload):
resolve without creating; on failure return `false` with the document
untouched, on success assign `value_from(value)` to the resolved node and
return `true`. -/
def write {α : Type} (doc : JValue) (tag : JTag α) (v : α) : Bool × JValue :=
  match writeAt doc tag.ptr (tag.conv.value_from v) with
  | some d => (true, d)
  | none => (false, doc)

/-- `write(jv, tag, nullptr)`: like `write` but assigns the JSON null. -/
def write_null {α : Type} (doc : JValue) (tag : JTag α) : Bool × JValue :=
  match writeAt doc tag.ptr .null with
  | some d => (true, d)
  | none => (false, doc)

/-- `emplace(jv, tag, value)` = `jv.set_at_pointer(path, value_from(value))`.
Returns the updated document and the location of the returned reference;
a raising failure of `set_at_pointer` is `none` in the second component. -/
def emplace {α : Type} (doc : JValue) (tag : JTag α) (v : α) : JValue × Option (List Step) :=
  match set_at_pointer doc tag.ptr (tag.conv.value_from v) with
  | some (d, l) => (d, some l)
  | none => (doc, none)

/-- `emplace(jv, tag, nullptr)`: sets the terminal node to JSON null. -/
def emplace_null {α : Type} (doc : JValue) (tag : JTag α) : JValue × Option (List Step) :=
  match set_at_pointer doc tag.ptr .null with
  | some (d, l) => (d, some l)
  | none => (doc, none)

/-- `reference(jv, tag)` = `jv.find_pointer(path, ec)`: the node the path
resolves to, unconverted, or null. -/
def reference {α : Type} (doc : JValue) (tag : JTag α) : Option JValue :=
  find_pointer doc tag.ptr

/-- The document `set_at_pointer` builds below a fresh (null) node for a
given token list: nested singleton objects for key tokens, arrays padded
with nulls up to the index for numeric tokens, a singleton array for `-`.
This is the minimal structure making the path resolve. -/
def mkMinimal : List String → JValue → JValue
  | [], w => w
  | t :: rest, w =>
    match setIndexToken t 0 with
    | some i => .arr (List.replicate i .null ++ [mkMinimal rest w])
    | none => .obj [(t, mkMinimal rest w)]

/-- The location of the node written by `set_at_pointer` when creating
from a fresh (null) node. -/
def mkLoc : List String → List Step
  | [] => []
  | t :: rest =>
    match setIndexToken t 0 with
    | some i => .arrIdx i :: mkLoc rest
    | none => .objKey t :: mkLoc rest

/-- `missingAt m t` holds when walking token `t` at node `m` leaves
existing structure and enters creation during `set_at_pointer`: `m` is
null (replaced by a fresh container), an object without the key `t`, or an
array whose (possibly past-the-end) index for `t` is at or beyond its size
and within the creation cap.  A non-null scalar or an invalid index is not
"missing" — there `set_at_pointer` fails instead of creating. -/
def missingAt : JValue → String → Bool
  | .null, _ => true
  | .obj fields, t => (lookupField fields t).isNone
  | .arr elems, t =>
    match setIndexToken t elems.length with
    | some i => decide (elems.length ≤ i ∧ i ≤ maxCreatedElementIndex)
    | none => false
  | _, _ => false

/-- The node `m` extended with exactly the minimal structure that makes the
token path `t :: p2` resolve below it: everything already in `m` is kept
and one minimal chain (`mkMinimal`) is added under `t`. -/
def extendMinimal (m : JValue) (t : String) (p2 : List String) (w : JValue) : JValue :=
  match m with
  | .null => mkMinimal (t :: p2) w
  | .obj fields => .obj (fields ++ [(t, mkMinimal p2 w)])
  | .arr elems =>
    (match setIndexToken t elems.length with
     | some i => .arr (elems ++ List.replicate (i - elems.length) .null ++ [mkMinimal p2 w])
     | none => .arr elems)
  | m => m

/-- `isBelow p q` holds when the token list `p` is an initial segment of
`q`, i.e. the node at `q` lies at or below the node at `p`. -/
def isBelow : List String → List String → Bool
  | [], _ => true
  | _ :: _, [] => false
  | a :: p1, b :: q1 => a = b && isBelow p1 q1

/-- The conversion bound to a `string`-typed accessor. -/
def strConv : JConv String where
  value_from := .str
  try_value_to := fun n =>
    match n with
    | .str s => some s
    | _ => none
  round_trip := fun _ => rfl

/-- The conversion bound to an `int`-typed accessor. -/
def intConv : JConv Int where
  value_from := .num
  try_value_to := fun n =>
    match n with
    | .num i => some i
    | _ => none
  round_trip := fun _ => rfl

/-- The test suite's `UserName` tag: `MAKE_JSON_ACCESSOR(UserName, string, "/user/name")`. -/
def UserName : JTag String := ⟨pointerTokens "/user/name", strConv⟩

/-- The test suite's `UserAge` tag: `MAKE_JSON_ACCESSOR(UserAge, int, "/user/age")`. -/
def UserAge : JTag Int := ⟨pointerTokens "/user/age", intConv⟩

/-- A tag whose pointer is the single past-the-end token `-`. -/
def DashTag : JTag Int := ⟨pointerTokens "/-", intConv⟩

/-- The test suite's `template_json` document
`{"user": {"name": "Alice", "age": 23, "languages": [...]}}`. -/
def templateJson : JValue :=
  .obj [("user", .obj
    [("name", .str "Alice"),
     ("age", .num 23),
     ("languages", .arr [.str "C++", .str "Python", .str "Haskell", .str "Rust"])])]

/-! ### Helper lemmas -/

theorem lookupField_replaceField_self {l : List (String × JValue)} {t : String} {v : JValue}
    (h : lookupField l t = some v) (c : JValue) :
    lookupField (replaceField l t c) t = some c := by
  induction l with
  | nil => simp [lookupField] at h
  | cons kv rest ih =>
    obtain ⟨k, w⟩ := kv
    by_cases hk : k = t
    · simp [lookupField, replaceField, hk]
    · simp only [lookupField, replaceField, if_neg hk] at h ⊢
      exact ih h

theorem lookupField_replaceField_ne {l : List (String × JValue)} {s t : String}
    (hst : s ≠ t) (c : JValue) :
    lookupField (replaceField l t c) s = lookupField l s := by
  induction l with
  | nil => rfl
  | cons kv rest ih =>
    obtain ⟨k, w⟩ := kv
    by_cases hk : k = t
    · subst hk
      have hks : k ≠ s := fun h => hst h.symm
      simp [lookupField, replaceField, hks]
    · simp only [replaceField, if_neg hk, lookupField]
      by_cases hks : k = s
      · simp [hks]
      · simp [hks, ih]

theorem replaceField_cancel {l : List (String × JValue)} {t : String} {c : JValue}
    (h : lookupField l t = some c) :
    replaceField l t c = l := by
  induction l with
  | nil => rfl
  | cons kv rest ih =>
    obtain ⟨k, w⟩ := kv
    by_cases hk : k = t
    · simp only [lookupField, if_pos hk] at h
      injection h with h
      simp [replaceField, hk, h]
    · simp only [lookupField, if_neg hk] at h
      simp [replaceField, hk, ih h]

theorem lookupField_append_self {l : List (String × JValue)} {t : String}
    (h : lookupField l t = none) (c : JValue) :
    lookupField (l ++ [(t, c)]) t = some c := by
  induction l with
  | nil => simp [lookupField]
  | cons kv rest ih =>
    obtain ⟨k, w⟩ := kv
    by_cases hk : k = t
    · simp [lookupField, hk] at h
    · simp only [List.cons_append, lookupField, if_neg hk] at h ⊢
      exact ih h

theorem set_self_of_getElem? {α : Type} {l : List α} {i : Nat} {a : α}
    (h : l[i]? = some a) : l.set i a = l := by
  induction l generalizing i with
  | nil => simp at h
  | cons x xs ih =>
    cases i with
    | zero =>
      simp only [List.getElem?_cons_zero, Option.some.injEq] at h
      simp [List.set, h]
    | succ n =>
      simp only [List.getElem?_cons_succ] at h
      simp [List.set, ih h]

theorem parseIndex_eq_repr {t : String} {i : Nat} (h : parseIndex t = some i) :
    t = Nat.repr i := by
  unfold parseIndex at h
  split at h
  next j _ =>
    split at h
    next hr =>
      injection h with h
      subst h
      exact hr.symm
    next => cases h
  next => cases h

theorem parseIndex_inj {t s : String} {i : Nat}
    (ht : parseIndex t = some i) (hs : parseIndex s = some i) : t = s := by
  rw [parseIndex_eq_repr ht, parseIndex_eq_repr hs]

theorem parseIndex_dash : parseIndex "-" = none := rfl

theorem setIndexToken_of_ne_dash {t : String} (h : t ≠ "-") (n : Nat) :
    setIndexToken t n = parseIndex t := by
  simp [setIndexToken, h]

theorem writeAt_isSome {doc : JValue} {p : List String} {w : JValue} :
    (writeAt doc p w).isSome = (find_pointer doc p).isSome := by
  induction p generalizing doc with
  | nil => cases doc <;> rfl
  | cons t rest ih =>
    cases doc with
    | obj fields =>
      simp only [writeAt, find_pointer]
      cases hl : lookupField fields t with
      | none => rfl
      | some child =>
        simp only
        have hih := @ih child
        cases hw : writeAt child rest w <;> cases hf : find_pointer child rest <;>
          simp [hw, hf] at hih ⊢
    | arr elems =>
      simp only [writeAt, find_pointer]
      cases hpi : parseIndex t with
      | none => rfl
      | some i =>
        simp only
        cases he : elems[i]? with
        | none => rfl
        | some child =>
          simp only
          have hih := @ih child
          cases hw : writeAt child rest w <;> cases hf : find_pointer child rest <;>
            simp [hw, hf] at hih ⊢
    | null => rfl
    | bool b => rfl
    | num n => rfl
    | str s => rfl

theorem writeAt_of_find_none {doc : JValue} {p : List String} (w : JValue)
    (h : find_pointer doc p = none) : writeAt doc p w = none := by
  have := @writeAt_isSome doc p w
  rw [h] at this
  cases hw : writeAt doc p w with
  | none => rfl
  | some d => rw [hw] at this; cases this

theorem writeAt_of_find_some {doc : JValue} {p : List String} {n : JValue} (w : JValue)
    (h : find_pointer doc p = some n) : ∃ d, writeAt doc p w = some d := by
  have := @writeAt_isSome doc p w
  rw [h] at this
  cases hw : writeAt doc p w with
  | none => rw [hw] at this; cases this
  | some d => exact ⟨d, rfl⟩

theorem find_pointer_nil (v : JValue) : find_pointer v [] = some v := by
  cases v <;> rfl

theorem writeAt_nil (v w : JValue) : writeAt v [] w = some w := by
  cases v <;> rfl

theorem find_pointer_writeAt {doc : JValue} {p : List String} {w d : JValue}
    (h : writeAt doc p w = some d) : find_pointer d p = some w := by
  induction p generalizing doc d with
  | nil =>
    rw [writeAt_nil] at h
    injection h with h
    subst h
    exact find_pointer_nil w
  | cons t rest ih =>
    cases doc with
    | obj fields =>
      simp only [writeAt] at h
      split at h
      next child hl =>
        split at h
        next c hw =>
          injection h with h
          subst h
          simp only [find_pointer, lookupField_replaceField_self hl c]
          exact ih hw
        next => cases h
      next => cases h
    | arr elems =>
      simp only [writeAt] at h
      split at h
      next i hpi =>
        split at h
        next child he =>
          split at h
          next c hw =>
            injection h with h
            subst h
            have hlen : i < elems.length := by
              rcases List.getElem?_eq_some_iff.1 he with ⟨hlt, _⟩
              exact hlt
            simp only [find_pointer, hpi, List.getElem?_set_self hlen]
            exact ih hw
          next => cases h
        next => cases h
      next => cases h
    | null => cases h
    | bool b => cases h
    | num n => cases h
    | str s => cases h

theorem find_pointer_writeAt_off {doc : JValue} {p : List String} {w d : JValue}
    (h : writeAt doc p w = some d) :
    ∀ q : List String, isBelow p q = false → isBelow q p = false →
      find_pointer d q = find_pointer doc q := by
  induction p generalizing doc d with
  | nil =>
    intro q hpq _
    simp [isBelow] at hpq
  | cons t rest ih =>
    intro q hpq hqp
    cases q with
    | nil => simp [isBelow] at hqp
    | cons s q1 =>
      cases doc with
      | obj fields =>
        simp only [writeAt] at h
        split at h
        next child hl =>
          split at h
          next c hw =>
            injection h with h
            subst h
            by_cases hst : s = t
            · subst hst
              have hpq' : isBelow rest q1 = false := by simpa [isBelow] using hpq
              have hqp' : isBelow q1 rest = false := by simpa [isBelow] using hqp
              simp only [find_pointer, lookupField_replaceField_self hl c, hl]
              exact ih hw q1 hpq' hqp'
            · simp only [find_pointer, lookupField_replaceField_ne hst c]
          next => cases h
        next => cases h
      | arr elems =>
        simp only [writeAt] at h
        split at h
        next i hpi =>
          split at h
          next child he =>
            split at h
            next c hw =>
              injection h with h
              subst h
              cases hps : parseIndex s with
              | none => simp [find_pointer, hps]
              | some j =>
                by_cases hij : j = i
                · subst hij
                  have hst : s = t := parseIndex_inj hps hpi
                  subst hst
                  have hpq' : isBelow rest q1 = false := by simpa [isBelow] using hpq
                  have hqp' : isBelow q1 rest = false := by simpa [isBelow] using hqp
                  have hlen : j < elems.length := by
                    rcases List.getElem?_eq_some_iff.1 he with ⟨hlt, _⟩
                    exact hlt
                  simp only [find_pointer, hps, List.getElem?_set_self hlen, he]
                  exact ih hw q1 hpq' hqp'
                · have hij' : i ≠ j := fun hh => hij hh.symm
                  simp only [find_pointer, hps, List.getElem?_set_ne hij']
            next => cases h
          next => cases h
        next => cases h
      | null => cases h
      | bool b => cases h
      | num n => cases h
      | str s => cases h

theorem getAtLoc_nil (v : JValue) : getAtLoc v [] = some v := by
  cases v <;> rfl

theorem set_at_pointer_nil (v w : JValue) : set_at_pointer v [] w = some (w, []) := by
  cases v <;> rfl

theorem getElem?_replicate_append {α : Type} (i : Nat) (a c : α) :
    (List.replicate i a ++ [c])[i]? = some c := by
  have hcat := List.getElem?_concat_length (List.replicate i a) c
  rwa [List.length_replicate] at hcat

theorem getElem?_fill_append {α : Type} (elems : List α) (k : Nat) (a c : α) :
    (elems ++ List.replicate k a ++ [c])[elems.length + k]? = some c := by
  have hcat := List.getElem?_concat_length (elems ++ List.replicate k a) c
  rwa [List.length_append, List.length_replicate] at hcat

theorem getAtLoc_set_at_pointer {doc : JValue} {p : List String} {w d : JValue} {l : List Step}
    (h : set_at_pointer doc p w = some (d, l)) : getAtLoc d l = some w := by
  induction p generalizing doc d l with
  | nil =>
    rw [set_at_pointer_nil] at h
    injection h with h
    injection h with h1 h2
    subst h1
    subst h2
    exact getAtLoc_nil w
  | cons t rest ih =>
    cases doc with
    | null =>
      simp only [set_at_pointer] at h
      split at h
      next i hsi =>
        split at h
        next hle =>
          split at h
          next c l1 hr =>
            injection h with h
            injection h with h1 h2
            subst h1
            subst h2
            simp only [getAtLoc, getElem?_replicate_append]
            exact ih hr
          next => cases h
        next => cases h
      next hsi =>
        split at h
        next c l1 hr =>
          injection h with h
          injection h with h1 h2
          subst h1
          subst h2
          simp only [getAtLoc, lookupField, if_pos rfl]
          exact ih hr
        next => cases h
    | obj fields =>
      simp only [set_at_pointer] at h
      split at h
      next child hl =>
        split at h
        next c l1 hr =>
          injection h with h
          injection h with h1 h2
          subst h1
          subst h2
          simp only [getAtLoc, lookupField_replaceField_self hl c]
          exact ih hr
        next => cases h
      next hl =>
        split at h
        next c l1 hr =>
          injection h with h
          injection h with h1 h2
          subst h1
          subst h2
          simp only [getAtLoc, lookupField_append_self hl c]
          exact ih hr
        next => cases h
    | arr elems =>
      simp only [set_at_pointer] at h
      split at h
      next i hsi =>
        split at h
        next hlt =>
          split at h
          next c l1 hr =>
            injection h with h
            injection h with h1 h2
            subst h1
            subst h2
            simp only [getAtLoc, List.getElem?_set_self hlt]
            exact ih hr
          next => cases h
        next hnlt =>
          split at h
          next hle =>
            split at h
            next c l1 hr =>
              injection h with h
              injection h with h1 h2
              subst h1
              subst h2
              have hlen : elems.length ≤ i := Nat.le_of_not_lt hnlt
              have hidx :
                  (elems ++ List.replicate (i - elems.length) JValue.null ++ [c])[i]? = some c := by
                have hfill := getElem?_fill_append elems (i - elems.length) JValue.null c
                rwa [Nat.add_sub_cancel' hlen] at hfill
              simp only [getAtLoc, hidx]
              exact ih hr
            next => cases h
          next => cases h
      next => cases h
    | bool b => cases h
    | num n => cases h
    | str s => cases h

theorem set_at_pointer_null {p : List String} (w : JValue)
    (hp : ∀ t ∈ p, (parseIndex t).getD 0 ≤ maxCreatedElementIndex) :
    set_at_pointer .null p w = some (mkMinimal p w, mkLoc p) := by
  induction p with
  | nil => rfl
  | cons t rest ih =>
    have hrest : ∀ t' ∈ rest, (parseIndex t').getD 0 ≤ maxCreatedElementIndex :=
      fun t' ht' => hp t' (List.mem_cons_of_mem _ ht')
    have ht := hp t (List.mem_cons_self _ _)
    cases hsi : setIndexToken t 0 with
    | some i =>
      have hle : i ≤ maxCreatedElementIndex := by
        unfold setIndexToken at hsi
        by_cases hdash : t = "-"
        · rw [if_pos hdash] at hsi
          injection hsi with hsi
          subst hsi
          exact Nat.zero_le _
        · rw [if_neg hdash] at hsi
          rw [hsi] at ht
          simpa using ht
      simp [set_at_pointer, hsi, hle, ih hrest, mkMinimal, mkLoc]
    | none =>
      simp [set_at_pointer, hsi, ih hrest, mkMinimal, mkLoc]

theorem set_at_pointer_of_find {doc : JValue} {p : List String} {n : JValue}
    (h : find_pointer doc p = some n) (w : JValue) :
    ∃ d l, set_at_pointer doc p w = some (d, l) := by
  induction p generalizing doc with
  | nil => exact ⟨w, [], set_at_pointer_nil doc w⟩
  | cons t rest ih =>
    cases doc with
    | obj fields =>
      simp only [find_pointer] at h
      split at h
      next child hl =>
        obtain ⟨d, l, hd⟩ := ih h
        refine ⟨.obj (replaceField fields t d), .objKey t :: l, ?_⟩
        simp [set_at_pointer, hl, hd]
      next => cases h
    | arr elems =>
      simp only [find_pointer] at h
      split at h
      next i hpi =>
        split at h
        next child he =>
          obtain ⟨d, l, hd⟩ := ih h
          obtain ⟨hlt, hgec⟩ := List.getElem?_eq_some_iff.1 he
          have hsi : setIndexToken t elems.length = some i := by
            have hdash : t ≠ "-" := by
              intro hh
              subst hh
              rw [parseIndex_dash] at hpi
              cases hpi
            rw [setIndexToken_of_ne_dash hdash, hpi]
          have hchild : elems.getD i JValue.null = child := by
            rw [List.getD_eq_getElem?_getD, he]
            rfl
          refine ⟨.arr (elems.set i d), .arrIdx i :: l, ?_⟩
          simp [set_at_pointer, hsi, hlt, hchild, hgec, hd]
        next => cases h
      next => cases h
    | null => cases h
    | bool b => cases h
    | num n => cases h
    | str s => cases h

theorem set_at_pointer_idem {p : List String} {w : JValue} :
    ∀ {doc d : JValue} {l : List Step}, "-" ∉ p →
      set_at_pointer doc p w = some (d, l) → set_at_pointer d p w = some (d, l) := by
  induction p with
  | nil =>
    intro doc d l _ h
    rw [set_at_pointer_nil] at h
    injection h with h
    injection h with h1 h2
    subst h1
    subst h2
    exact set_at_pointer_nil w w
  | cons t rest ih =>
    intro doc d l hdash h
    have htd : t ≠ "-" := by
      intro hh
      apply hdash
      rw [hh]
      exact List.mem_cons_self _ _
    have hdrest : "-" ∉ rest := fun hm => hdash (List.mem_cons_of_mem _ hm)
    cases doc with
    | null =>
      simp only [set_at_pointer] at h
      split at h
      next i hsi =>
        have hpi : parseIndex t = some i := by
          rwa [setIndexToken_of_ne_dash htd] at hsi
        split at h
        next hle =>
          split at h
          next c l1 hr =>
            injection h with h
            injection h with h1 h2
            subst h1
            subst h2
            have hsi2 : setIndexToken t (List.replicate i JValue.null ++ [c]).length = some i := by
              rw [setIndexToken_of_ne_dash htd, hpi]
            have hlt2 : i < (List.replicate i JValue.null ++ [c]).length := by
              simp
            have hget : (List.replicate i JValue.null ++ [c])[i]? = some c :=
              getElem?_replicate_append i JValue.null c
            have hgetD : (List.replicate i JValue.null ++ [c]).getD i JValue.null = c := by
              rw [List.getD_eq_getElem?_getD, hget]
              rfl
            have hih := ih hdrest hr
            have hset : (List.replicate i JValue.null ++ [c]).set i c
                = List.replicate i JValue.null ++ [c] := set_self_of_getElem? hget
            simp only [set_at_pointer, hsi2, if_pos hlt2, hgetD, hih, hset]
          next => cases h
        next => cases h
      next hsi =>
        split at h
        next c l1 hr =>
          injection h with h
          injection h with h1 h2
          subst h1
          subst h2
          have hlk : lookupField [(t, c)] t = some c := by
            simp [lookupField]
          have hih := ih hdrest hr
          have hrepl : replaceField [(t, c)] t c = [(t, c)] := replaceField_cancel hlk
          simp [set_at_pointer, hlk, hih, hrepl]
        next => cases h
    | obj fields =>
      simp only [set_at_pointer] at h
      split at h
      next child hl =>
        split at h
        next c l1 hr =>
          injection h with h
          injection h with h1 h2
          subst h1
          subst h2
          have hlk : lookupField (replaceField fields t c) t = some c :=
            lookupField_replaceField_self hl c
          have hih := ih hdrest hr
          have hrepl : replaceField (replaceField fields t c) t c = replaceField fields t c :=
            replaceField_cancel hlk
          simp [set_at_pointer, hlk, hih, hrepl]
        next => cases h
      next hl =>
        split at h
        next c l1 hr =>
          injection h with h
          injection h with h1 h2
          subst h1
          subst h2
          have hlk : lookupField (fields ++ [(t, c)]) t = some c :=
            lookupField_append_self hl c
          have hih := ih hdrest hr
          have hrepl : replaceField (fields ++ [(t, c)]) t c = fields ++ [(t, c)] :=
            replaceField_cancel hlk
          simp [set_at_pointer, hlk, hih, hrepl]
        next => cases h
    | arr elems =>
      simp only [set_at_pointer] at h
      split at h
      next i hsi =>
        have hpi : parseIndex t = some i := by
          rwa [setIndexToken_of_ne_dash htd] at hsi
        split at h
        next hlt =>
          split at h
          next c l1 hr =>
            injection h with h
            injection h with h1 h2
            subst h1
            subst h2
            have hsi2 : setIndexToken t (elems.set i c).length = some i := by
              rw [setIndexToken_of_ne_dash htd, hpi]
            have hget : (elems.set i c)[i]? = some c := List.getElem?_set_self hlt
            have hgetD : (elems.set i c).getD i JValue.null = c := by
              rw [List.getD_eq_getElem?_getD, hget]
              rfl
            have hlt2 : i < (elems.set i c).length := by
              simpa using hlt
            have hih := ih hdrest hr
            have hset : (elems.set i c).set i c = elems.set i c := set_self_of_getElem? hget
            simp only [set_at_pointer, hsi2, if_pos hlt2, hgetD, hih, hset]
          next => cases h
        next hnlt =>
          split at h
          next hle =>
            split at h
            next c l1 hr =>
              injection h with h
              injection h with h1 h2
              subst h1
              subst h2
              have hlen : elems.length ≤ i := Nat.le_of_not_lt hnlt
              have hget :
                  (elems ++ List.replicate (i - elems.length) JValue.null ++ [c])[i]? = some c := by
                have hfill := getElem?_fill_append elems (i - elems.length) JValue.null c
                rwa [Nat.add_sub_cancel' hlen] at hfill
              have hlenA :
                  (elems ++ List.replicate (i - elems.length) JValue.null ++ [c]).length = i + 1 := by
                simp only [List.length_append, List.length_replicate, List.length_cons,
                  List.length_nil]
                omega
              have hsi2 : setIndexToken t
                  (elems ++ List.replicate (i - elems.length) JValue.null ++ [c]).length
                    = some i := by
                rw [setIndexToken_of_ne_dash htd, hpi]
              have hlt2 :
                  i < (elems ++ List.replicate (i - elems.length) JValue.null ++ [c]).length := by
                rw [hlenA]
                omega
              have hgetD :
                  (elems ++ List.replicate (i - elems.length) JValue.null ++ [c]).getD i
                    JValue.null = c := by
                rw [List.getD_eq_getElem?_getD, hget]
                rfl
              have hih := ih hdrest hr
              have hset :
                  (elems ++ List.replicate (i - elems.length) JValue.null ++ [c]).set i c
                    = elems ++ List.replicate (i - elems.length) JValue.null ++ [c] :=
                set_self_of_getElem? hget
              simp only [set_at_pointer, hsi2, if_pos hlt2, hgetD, hih, hset]
            next => cases h
          next => cases h
      next => cases h
    | bool b => cases h
    | num n => cases h
    | str s => cases h

theorem set_at_pointer_extend {m : JValue} {t : String} {p2 : List String} (w : JValue)
    (hmiss : missingAt m t = true)
    (hbound : ∀ s ∈ t :: p2, (parseIndex s).getD 0 ≤ maxCreatedElementIndex) :
    ∃ l, set_at_pointer m (t :: p2) w = some (extendMinimal m t p2 w, l) := by
  have hb2 : ∀ s ∈ p2, (parseIndex s).getD 0 ≤ maxCreatedElementIndex :=
    fun s hs => hbound s (List.mem_cons_of_mem _ hs)
  cases m with
  | null =>
    refine ⟨mkLoc (t :: p2), ?_⟩
    rw [set_at_pointer_null w hbound]
    rfl
  | obj fields =>
    have hlf : lookupField fields t = none := by
      simpa [missingAt, Option.isNone_iff_eq_none] using hmiss
    have hnull : set_at_pointer JValue.null p2 w = some (mkMinimal p2 w, mkLoc p2) :=
      set_at_pointer_null w hb2
    refine ⟨.objKey t :: mkLoc p2, ?_⟩
    simp [set_at_pointer, hlf, hnull, extendMinimal]
  | arr elems =>
    simp only [missingAt] at hmiss
    split at hmiss
    next i hsi =>
      obtain ⟨hle, hmax⟩ := of_decide_eq_true hmiss
      have hnlt : ¬ i < elems.length := Nat.not_lt.2 hle
      have hnull : set_at_pointer JValue.null p2 w = some (mkMinimal p2 w, mkLoc p2) :=
        set_at_pointer_null w hb2
      refine ⟨.arrIdx i :: mkLoc p2, ?_⟩
      simp only [set_at_pointer, hsi, if_neg hnlt, if_pos hmax, hnull, extendMinimal]
    next => cases hmiss
  | bool b => cases hmiss
  | num n => cases hmiss
  | str s => cases hmiss

theorem set_at_pointer_append {p1 : List String} :
    ∀ {doc m : JValue}, find_pointer doc p1 = some m →
      ∀ {q : List String} {w c : JValue} {l2 : List Step},
        set_at_pointer m q w = some (c, l2) →
        ∃ d l1, set_at_pointer doc (p1 ++ q) w = some (d, l1 ++ l2) ∧
          writeAt doc p1 c = some d := by
  induction p1 with
  | nil =>
    intro doc m hf q w c l2 hs
    rw [find_pointer_nil] at hf
    injection hf with hf
    subst hf
    exact ⟨c, [], hs, writeAt_nil doc c⟩
  | cons t rest ih =>
    intro doc m hf q w c l2 hs
    cases doc with
    | obj fields =>
      simp only [find_pointer] at hf
      split at hf
      next child hl =>
        obtain ⟨d, l1, hset, hwrite⟩ := ih hf hs
        refine ⟨.obj (replaceField fields t d), .objKey t :: l1, ?_, ?_⟩
        · simp [set_at_pointer, hl, hset, List.cons_append]
        · simp [writeAt, hl, hwrite]
      next => cases hf
    | arr elems =>
      simp only [find_pointer] at hf
      split at hf
      next i hpi =>
        split at hf
        next child he =>
          obtain ⟨d, l1, hset, hwrite⟩ := ih hf hs
          obtain ⟨hlt, hgec⟩ := List.getElem?_eq_some_iff.1 he
          have hdash : t ≠ "-" := by
            intro hh
            subst hh
            rw [parseIndex_dash] at hpi
            cases hpi
          have hsi : setIndexToken t elems.length = some i := by
            rw [setIndexToken_of_ne_dash hdash, hpi]
          have hchild : elems.getD i JValue.null = child := by
            rw [List.getD_eq_getElem?_getD, he]
            rfl
          refine ⟨.arr (elems.set i d), .arrIdx i :: l1, ?_, ?_⟩
          · simp [set_at_pointer, hsi, hlt, hchild, hgec, hset, List.cons_append]
          · simp [writeAt, hpi, he, hwrite]
        next => cases hf
      next => cases hf
    | null => cases hf
    | bool b => cases hf
    | num n => cases hf
    | str s => cases hf

/-! ### Claim theorems -/

/-- C1: for every Tag and every JSON document in which the Tag's Path fully
resolves to a node convertible to the Bound Value Type, `try_read` succeeds
and the value it returns equals the value returned by `read` on the same
document and Tag. -/
theorem claim_c1_read_try_read_agree {α : Type} (doc : JValue) (tag : JTag α)
    (n : JValue) (v : α)
    (h1 : find_pointer doc tag.ptr = some n)
    (h2 : tag.conv.try_value_to n = some v) :
    try_read doc tag = .ok v ∧ read doc tag = .ok v := by
  constructor
  · simp [try_read, h1, h2]
  · simp [read, at_pointer, h1, value_to, h2]

/-- Witness for C1: at the test suite's document and `UserName` tag both
readers return `"Alice"`. -/
theorem claim_c1_witness :
    try_read templateJson UserName = .ok "Alice" ∧
      read templateJson UserName = .ok "Alice" :=
  claim_c1_read_try_read_agree templateJson UserName (.str "Alice") "Alice" rfl rfl

/-- C2: when any segment of the Path is absent (resolution fails), `read`
raises NotFound and `try_read` returns the NotFound error value; when the
Path resolves but the node is not convertible, `read` raises TypeMismatch
and `try_read` returns the TypeMismatch error value — so no mismatch is
ever silently coerced. -/
theorem claim_c2_error_taxonomy {α : Type} (doc : JValue) (tag : JTag α) :
    (find_pointer doc tag.ptr = none →
      read doc tag = .error .notFound ∧ try_read doc tag = .error .notFound) ∧
    (∀ n, find_pointer doc tag.ptr = some n → tag.conv.try_value_to n = none →
      read doc tag = .error .typeMismatch ∧ try_read doc tag = .error .typeMismatch) := by
  constructor
  · intro h
    constructor
    · simp [read, at_pointer, h]
    · simp [try_read, h]
  · intro n h1 h2
    constructor
    · simp [read, at_pointer, h1, value_to, h2]
    · simp [try_read, h1, h2]

/-- Witness for C2: on the null document `read` reports NotFound for
`UserName`; on a document whose `/user/name` node is a number, `try_read`
reports TypeMismatch. -/
theorem claim_c2_witness :
    read JValue.null UserName = .error .notFound ∧
    try_read (JValue.obj [("user", JValue.obj [("name", JValue.num 5)])]) UserName
      = .error .typeMismatch :=
  ⟨((claim_c2_error_taxonomy JValue.null UserName).1 rfl).1,
   ((claim_c2_error_taxonomy (JValue.obj [("user", JValue.obj [("name", JValue.num 5)])])
      UserName).2 (JValue.num 5) rfl rfl).2⟩

/-- C3: when some segment of the Path is missing, `write` (either with a
typed value or with the null sentinel) returns `false` and leaves the
document exactly as it was — no intermediate structure is created — and
`reference` returns null. -/
theorem claim_c3_write_reference_absent {α : Type} (doc : JValue) (tag : JTag α) (v : α)
    (h : find_pointer doc tag.ptr = none) :
    write doc tag v = (false, doc) ∧ write_null doc tag = (false, doc) ∧
      reference doc tag = none := by
  refine ⟨?_, ?_, h⟩
  · simp [write, writeAt_of_find_none _ h]
  · simp [write_null, writeAt_of_find_none _ h]

/-- Witness for C3: on the null document, writes through `UserName` fail
and change nothing, and `reference` is null. -/
theorem claim_c3_witness :
    write JValue.null UserName "Bob" = (false, JValue.null) ∧
    write_null JValue.null UserName = (false, JValue.null) ∧
    reference JValue.null UserName = none :=
  claim_c3_write_reference_absent JValue.null UserName "Bob" rfl

/-- C4: `emplace` on any document missing intermediate structure along the
Path creates exactly the minimal object/array nodes needed and no more.
Split the Path at the first missing point: the prefix `p1` resolves in the
document to a node `m` at which the next token `t` is absent-but-creatable
(`missingAt`).  Then `emplace` succeeds, and the resulting document is
exactly the old document with the node at `p1` replaced by `m` extended by
one minimal chain for the remaining tokens (`extendMinimal` keeps all of
`m`'s existing children and adds nothing else); every pointer diverging
from `p1` resolves exactly as before; and the returned reference
designates a node holding exactly the converted value.  The empty (null)
document is the instance `p1 = []`, `m = null`, whose result is
`mkMinimal` — in particular `{"user":{"name":<value>}}` for
`/user/name`. -/
theorem claim_c4_emplace_minimal {α : Type} (tag : JTag α) (v : α)
    (doc m : JValue) (p1 : List String) (t : String) (p2 : List String)
    (hsplit : tag.ptr = p1 ++ t :: p2)
    (hres : find_pointer doc p1 = some m)
    (hmiss : missingAt m t = true)
    (hbound : ∀ s ∈ t :: p2, (parseIndex s).getD 0 ≤ maxCreatedElementIndex) :
    writeAt doc p1 (extendMinimal m t p2 (tag.conv.value_from v))
      = some (emplace doc tag v).1 ∧
    (emplace doc tag v).2.isSome = true ∧
    (emplace doc tag v).2.bind (getAtLoc (emplace doc tag v).1)
      = some (tag.conv.value_from v) ∧
    (∀ q, isBelow p1 q = false → isBelow q p1 = false →
      find_pointer (emplace doc tag v).1 q = find_pointer doc q) := by
  obtain ⟨l2, hext⟩ := set_at_pointer_extend (tag.conv.value_from v) hmiss hbound
  obtain ⟨d, l1, hset, hwrite⟩ := set_at_pointer_append hres hext
  have hset2 : set_at_pointer doc tag.ptr (tag.conv.value_from v) = some (d, l1 ++ l2) := by
    rw [hsplit]
    exact hset
  have he : emplace doc tag v = (d, some (l1 ++ l2)) := by
    simp [emplace, hset2]
  refine ⟨?_, ?_, ?_, ?_⟩
  · rw [he]
    exact hwrite
  · rw [he]
    rfl
  · rw [he]
    simpa using getAtLoc_set_at_pointer hset2
  · intro q h1 h2
    rw [he]
    exact find_pointer_writeAt_off hwrite q h1 h2

/-- Witness for C4: on `{"user":{"age":23}}`, which has `/user` but not
`/user/name`, `emplace` through `UserName` adds exactly the `name` member
and keeps `age`; on the empty (null) document it produces exactly
`{"user":{"name":"Bob"}}`, whose referenced node holds `"Bob"`. -/
theorem claim_c4_witness :
    (emplace (JValue.obj [("user", JValue.obj [("age", JValue.num 23)])]) UserName "Bob").1
      = JValue.obj [("user", JValue.obj [("age", JValue.num 23), ("name", JValue.str "Bob")])] ∧
    (emplace JValue.null UserName "Bob").1
      = JValue.obj [("user", JValue.obj [("name", JValue.str "Bob")])] ∧
    (emplace JValue.null UserName "Bob").2.bind
        (getAtLoc (emplace JValue.null UserName "Bob").1) = some (JValue.str "Bob") := by
  have h1 := claim_c4_emplace_minimal UserName "Bob"
    (JValue.obj [("user", JValue.obj [("age", JValue.num 23)])])
    (JValue.obj [("age", JValue.num 23)]) ["user"] "name" [] rfl rfl rfl (by decide)
  have h2 := claim_c4_emplace_minimal UserName "Bob" JValue.null JValue.null [] "user"
    ["name"] rfl rfl rfl (by decide)
  have e1 : some (JValue.obj [("user",
      JValue.obj [("age", JValue.num 23), ("name", JValue.str "Bob")])])
        = some (emplace (JValue.obj [("user", JValue.obj [("age", JValue.num 23)])])
            UserName "Bob").1 := h1.1
  have e2 : some (JValue.obj [("user", JValue.obj [("name", JValue.str "Bob")])])
      = some (emplace JValue.null UserName "Bob").1 := h2.1
  exact ⟨(Option.some.inj e1).symm, (Option.some.inj e2).symm, h2.2.2.1⟩

/-- C5: a value obtained by `read` round-trips — writing it back succeeds
and a subsequent `read` returns the same value. -/
theorem claim_c5_round_trip {α : Type} (doc : JValue) (tag : JTag α) (v : α)
    (h : read doc tag = .ok v) :
    (write doc tag v).1 = true ∧ read (write doc tag v).2 tag = .ok v := by
  have hfind : ∃ n, find_pointer doc tag.ptr = some n ∧ tag.conv.try_value_to n = some v := by
    unfold read at h
    split at h
    next n hat =>
      unfold value_to at h
      split at h
      next v1 hv =>
        injection h with h
        subst h
        refine ⟨n, ?_, hv⟩
        unfold at_pointer at hat
        split at hat
        next m hm =>
          injection hat with hat
          subst hat
          exact hm
        next => cases hat
      next => cases h
    next e hat => cases h
  obtain ⟨n, hf, hconv⟩ := hfind
  obtain ⟨d, hd⟩ := writeAt_of_find_some (tag.conv.value_from v) hf
  have hw : write doc tag v = (true, d) := by simp [write, hd]
  constructor
  · rw [hw]
  · rw [hw]
    have hfd : find_pointer d tag.ptr = some (tag.conv.value_from v) := find_pointer_writeAt hd
    simp [read, at_pointer, hfd, value_to, tag.conv.round_trip v]

/-- Witness for C5: the `"Alice"` read from the test document round-trips
through `write` and `read`. -/
theorem claim_c5_witness :
    (write templateJson UserName "Alice").1 = true ∧
      read (write templateJson UserName "Alice").2 UserName = .ok "Alice" :=
  claim_c5_round_trip templateJson UserName "Alice" rfl

/-- C6 counterexample: `emplace` is not idempotent for every Tag and
document — for the Tag whose pointer is the single past-the-end token (RFC
6901 `-`) on
the empty array, a second identical `emplace` appends a second element, so
the claim fails at this concrete input. -/
theorem claim_c6_counterexample :
    (emplace (emplace (JValue.arr []) DashTag 7).1 DashTag 7).1
      ≠ (emplace (JValue.arr []) DashTag 7).1 := by
  intro h
  have h2 : JValue.arr [.num 7, .num 7] = JValue.arr [.num 7] := h
  simp at h2

/-- C6 (amended): `emplace` is idempotent for every Tag whose Path contains
no past-the-end token `-`: calling it twice with the same Tag and value on
any starting document yields the same document (and returned reference) as
calling it once. -/
theorem claim_c6_emplace_idempotent {α : Type} (tag : JTag α) (v : α)
    (hdash : "-" ∉ tag.ptr) (doc : JValue) :
    emplace (emplace doc tag v).1 tag v = emplace doc tag v := by
  cases hs : set_at_pointer doc tag.ptr (tag.conv.value_from v) with
  | none => simp [emplace, hs]
  | some dl =>
    obtain ⟨d, l⟩ := dl
    have hidem := set_at_pointer_idem hdash hs
    simp [emplace, hs, hidem]

/-- Witness for amended C6: double `emplace` of `"Bob"` at `/user/name`
from the empty document equals a single `emplace`. -/
theorem claim_c6_witness :
    emplace (emplace JValue.null UserName "Bob").1 UserName "Bob"
      = emplace JValue.null UserName "Bob" :=
  claim_c6_emplace_idempotent UserName "Bob" (by decide) JValue.null

/-- C7: when the Path already resolves, `write` succeeds and overwrites
only the terminal node: the new document reads back the written value at
the Path, and every pointer that is neither at/below the Path nor an
ancestor of it (in particular every sibling of every Path segment)
resolves to exactly what it resolved to before. -/
theorem claim_c7_write_frame {α : Type} (doc : JValue) (tag : JTag α) (v : α)
    (d : JValue) (h : writeAt doc tag.ptr (tag.conv.value_from v) = some d) :
    write doc tag v = (true, d) ∧
    find_pointer d tag.ptr = some (tag.conv.value_from v) ∧
    ∀ q, isBelow tag.ptr q = false → isBelow q tag.ptr = false →
      find_pointer d q = find_pointer doc q := by
  refine ⟨by simp [write, h], find_pointer_writeAt h, ?_⟩
  exact find_pointer_writeAt_off h

/-- Witness for C7: writing `"Bob"` at `/user/name` in the test document
succeeds and leaves the sibling `/user/age` untouched. -/
theorem claim_c7_witness :
    (write templateJson UserName "Bob").1 = true ∧
    find_pointer (write templateJson UserName "Bob").2 (pointerTokens "/user/age")
      = some (JValue.num 23) := by
  have h := claim_c7_write_frame templateJson UserName "Bob"
    (JValue.obj [("user", JValue.obj [("name", JValue.str "Bob"), ("age", JValue.num 23),
      ("languages", JValue.arr [JValue.str "C++", JValue.str "Python", JValue.str "Haskell",
        JValue.str "Rust"])])]) rfl
  refine ⟨?_, ?_⟩
  · rw [h.1]
  · have hq := h.2.2 (pointerTokens "/user/age") rfl rfl
    rw [h.1]
    exact hq.trans rfl

/-- C8: when the Path resolves, writing the null sentinel succeeds and sets
the resolved node to JSON null; if the node was not already null the
document actually changes (writing null is distinct from not touching the
node); `emplace` with the null sentinel likewise leaves JSON null at the
node its returned reference designates. -/
theorem claim_c8_write_null {α : Type} (doc : JValue) (tag : JTag α) (n : JValue)
    (h : find_pointer doc tag.ptr = some n) :
    (write_null doc tag).1 = true ∧
    find_pointer (write_null doc tag).2 tag.ptr = some .null ∧
    (n ≠ .null → (write_null doc tag).2 ≠ doc) ∧
    (emplace_null doc tag).2.bind (getAtLoc (emplace_null doc tag).1) = some .null := by
  obtain ⟨d, hd⟩ := writeAt_of_find_some .null h
  have hw : write_null doc tag = (true, d) := by simp [write_null, hd]
  refine ⟨by rw [hw], ?_, ?_, ?_⟩
  · rw [hw]
    exact find_pointer_writeAt hd
  · intro hn heq
    rw [hw] at heq
    simp only at heq
    subst heq
    have hnl := find_pointer_writeAt hd
    rw [h] at hnl
    injection hnl with hnl
    exact hn hnl
  · obtain ⟨d2, l2, hdl⟩ := set_at_pointer_of_find h .null
    have he : emplace_null doc tag = (d2, some l2) := by simp [emplace_null, hdl]
    rw [he]
    simpa using getAtLoc_set_at_pointer hdl

/-- Witness for C8: nulling out `/user/name` in the test document succeeds,
changes the document, and `emplace_null` leaves null at the referenced
node. -/
theorem claim_c8_witness :
    (write_null templateJson UserName).1 = true ∧
    (write_null templateJson UserName).2 ≠ templateJson ∧
    (emplace_null templateJson UserName).2.bind
      (getAtLoc (emplace_null templateJson UserName).1) = some JValue.null := by
  have h := claim_c8_write_null templateJson UserName (JValue.str "Alice") rfl
  exact ⟨h.1, h.2.2.1 (by intro hh; cases hh), h.2.2.2⟩

/-- C9: when the Path resolves, `reference` hands back exactly the node the
Path addresses, unconverted; replacing that node with (the generic image
of) a new value and reading at the same Tag observes the new value. -/
theorem claim_c9_reference_live {α : Type} (doc : JValue) (tag : JTag α) (n : JValue)
    (h : reference doc tag = some n) :
    find_pointer doc tag.ptr = some n ∧
    ∀ v : α, (write doc tag v).1 = true ∧ read (write doc tag v).2 tag = .ok v := by
  refine ⟨h, fun v => ?_⟩
  obtain ⟨d, hd⟩ := writeAt_of_find_some (tag.conv.value_from v) h
  have hw : write doc tag v = (true, d) := by simp [write, hd]
  refine ⟨by rw [hw], ?_⟩
  rw [hw]
  have hfd := find_pointer_writeAt hd
  simp [read, at_pointer, hfd, value_to, tag.conv.round_trip v]

/-- Witness for C9: on the test document, mutating the node `reference`
designates for `UserName` to `"Carol"` is observed by a subsequent
`read`. -/
theorem claim_c9_witness :
    (write templateJson UserName "Carol").1 = true ∧
      read (write templateJson UserName "Carol").2 UserName = .ok "Carol" :=
  (claim_c9_reference_live templateJson UserName (JValue.str "Alice") rfl).2 "Carol"

/-- C10: `write` and `reference` agree on resolvability — `write` returns
`true` exactly when `reference` on the same pre-write document is
non-null, since both use the same non-creating resolution. -/
theorem claim_c10_write_reference_agree {α : Type} (doc : JValue) (tag : JTag α) (v : α) :
    (write doc tag v).1 = true ↔ (reference doc tag).isSome := by
  unfold write reference
  cases hf : find_pointer doc tag.ptr with
  | none =>
    rw [writeAt_of_find_none _ hf]
    simp
  | some n =>
    obtain ⟨d, hd⟩ := writeAt_of_find_some (tag.conv.value_from v) hf
    rw [hd]
    simp

end JsonAccessHelper
